import Mathlib

/-!
Shallow embedding of `src/botfuturosbinance.py` (class `FuturesBot`), the
signal / sizing / order-lifecycle core of a Binance USDⓈ-M futures bot.
Python floats are modelled as exact rationals (`ℚ`); exchange gateways
(balance, symbol info, order submission results, open-order listings) are
passed in as explicit arguments; each call to `self.log` becomes a
`LogEvent`, and each order submission/cancellation becomes an `Action`, so
that the traces the controller produces can be reasoned about.
-/

namespace FuturesBot

/-- Python's `round(x)` (round half to even) on an exact rational. -/
def roundHalfEven (x : ℚ) : ℤ :=
  if x - (⌊x⌋ : ℚ) < 1/2 then ⌊x⌋
  else if x - (⌊x⌋ : ℚ) > 1/2 then ⌊x⌋ + 1
  else if ⌊x⌋ % 2 = 0 then ⌊x⌋ else ⌊x⌋ + 1

/-- Python's `round(x, n)` for an integer number of decimal digits `n`
(negative `n` rounds to tens, hundreds, ...). -/
def roundTo (x : ℚ) (n : ℤ) : ℚ :=
  (roundHalfEven (x * (10 : ℚ) ^ n) : ℚ) / (10 : ℚ) ^ n

/-- `int(round(-math.log(s, 10), 0))`: the nearest integer to `-log10 s`,
used by `round_quantity` to derive a precision from the step size when the
symbol metadata carries no `quantityPrecision`.  For a rational `s > 0` the
tie `log10 s = n + 1/2` cannot occur, so the nearest integer is determined
by comparing `s^2` with `10^(2n+1)` where `n = ⌊log10 s⌋`. -/
def negLog10Round (s : ℚ) : ℤ :=
  let n := Int.log 10 s
  if s ^ 2 ≤ (10 : ℚ) ^ (2 * n + 1) then -n else -(n + 1)

/-- The slice of `get_symbol_info` that `round_quantity` consumes:
`quantityPrecision` (when present) and the `LOT_SIZE` filter's `stepSize`
(when present). -/
structure SymbolInfo where
  quantityPrecision : Option ℤ
  stepSize : Option ℚ
deriving DecidableEq

/-- Normalization core of `FuturesBot.round_quantity`
(src/botfuturosbinance.py:142-160), after the precision has been resolved:
without a `LOT_SIZE` step size, `round(quantity, precision)` (default 3);
with one, floor `quantity` to a multiple of the step size and round the
result to the precision (derived from the step size when absent). -/
def round_quantity_core (qp : Option ℤ) (stepSize : Option ℚ) (quantity : ℚ) : ℚ :=
  match stepSize with
  | none => roundTo quantity (qp.getD 3)
  | some step_size =>
    match qp with
    | some p => roundTo ((⌊quantity / step_size⌋ : ℚ) * step_size) p
    | none => roundTo ((⌊quantity / step_size⌋ : ℚ) * step_size) (negLog10Round step_size)

/-- `FuturesBot.round_quantity` (src/botfuturosbinance.py:127-163): read
`quantityPrecision` from the symbol info, forcing 2 decimals for SOLUSDT
when it is absent, then normalize against the `LOT_SIZE` step size. -/
def round_quantity (symbol : String) (info : SymbolInfo) (quantity : ℚ) : ℚ :=
  round_quantity_core
    (if symbol = "SOLUSDT" ∧ info.quantityPrecision = none then some 2
     else info.quantityPrecision)
    info.stepSize quantity

/-- `FuturesBot.calculate_order_quantity` (src/botfuturosbinance.py:165-174):
`(balance * base_capital_pct * leverage) / entry_price`, normalized by
`round_quantity`.  The balance reported by `get_available_balance` is an
explicit argument. -/
def calculate_order_quantity (symbol : String) (info : SymbolInfo)
    (base_capital_pct leverage : ℚ) (balance entry_price : ℚ) : ℚ :=
  let capital_to_use := balance * base_capital_pct
  let quantity := capital_to_use * leverage / entry_price
  round_quantity symbol info quantity

/-- Truncation toward zero, used to state the spec's normalization clause. -/
def truncTowardZero (x : ℚ) : ℤ :=
  if 0 ≤ x then ⌊x⌋ else ⌈x⌉

/-- Directional trading signal. -/
inductive Signal
  | LONG
  | SHORT
deriving DecidableEq

/-- One row of the indicator frame: `(ema_fast, ema_slow)`. -/
abbrev IndicatorPoint := ℚ × ℚ

/-- `FuturesBot.determine_signal` (src/botfuturosbinance.py:96-113): with
fewer than two rows, no signal; otherwise compare the EMA differences of
the last row (`iloc[-1]`) and the one before it (`iloc[-2]`). -/
def determine_signal (rows : List IndicatorPoint) : Option Signal :=
  if rows.length < 2 then none
  else
    match rows.getLast?, rows.dropLast.getLast? with
    | some last_row, some prev_row =>
      let prev_diff := prev_row.1 - prev_row.2
      let current_diff := last_row.1 - last_row.2
      if prev_diff ≤ 0 ∧ current_diff > 0 then some Signal.LONG
      else if prev_diff ≥ 0 ∧ current_diff < 0 then some Signal.SHORT
      else none
    | _, _ => none

/-- One entry of `futures_get_open_orders`: the fields the bot reads. -/
structure OrderInfo where
  type : String
  orderId : ℕ
deriving DecidableEq

/-- `FuturesBot.manage_stop_orders` (src/botfuturosbinance.py:255-274),
decision part: scan the open orders, remembering the last `STOP_MARKET`
and the last `TRAILING_STOP_MARKET` seen; when both exist, return the id
of the `STOP_MARKET` order to cancel, otherwise cancel nothing. -/
def manage_stop_orders (open_orders : List OrderInfo) : Option ℕ :=
  match (open_orders.filter (fun o => o.type = "STOP_MARKET")).getLast?,
        (open_orders.filter (fun o => o.type = "TRAILING_STOP_MARKET")).getLast? with
  | some s, some _ => some s.orderId
  | _, _ => none

/-- Effect of one `manage_stop_orders` call on the exchange's open-order
list: `futures_cancel_order` removes the order with the cancelled id. -/
def manage_stop_orders_run (open_orders : List OrderInfo) : List OrderInfo :=
  match manage_stop_orders open_orders with
  | some oid => open_orders.filter (fun o => ¬ o.orderId = oid)
  | none => open_orders

/-- An order submission or cancellation sent to the exchange. -/
inductive Action
  | marketOrder (side : String) (quantity : ℚ)
  | trailingStop (side : String) (quantity : ℚ) (callbackRate : ℚ)
  | cancelOrder (orderId : ℕ)
deriving DecidableEq

/-- Whether an action is a market-order submission. -/
def Action.isMarket : Action → Bool
  | .marketOrder _ _ => true
  | _ => false

/-- Whether an action is a trailing-stop submission. -/
def Action.isTrailing : Action → Bool
  | .trailingStop _ _ _ => true
  | _ => false

/-- The `self.log` calls of the trailing-stop path, by event label. -/
inductive LogEvent
  | trailingPlaced            -- "Trailing stop placed"
  | errorPlacingTrailing      -- "Error placing trailing stop"
  | retryingTrailing          -- "Retrying trailing stop"
  | trailingPlacedOnRetry     -- "Trailing stop placed on retry"
  | errorPlacingTrailingRetry -- "Error placing trailing stop on retry"
  | trailingCheckExists       -- "Trailing stop check" (already active)
  | trailingCheckMissing      -- "Trailing stop check" (placing one)
  | trailingActionSuccess     -- "Trailing stop colocado exitosamente."
deriving DecidableEq

/-- `FuturesBot.place_trailing_stop` (src/botfuturosbinance.py:198-236):
round the quantity, submit a reduce-only `TRAILING_STOP_MARKET` order with
`callbackRate = 1.0` (sell side for LONG, buy side for SHORT); if the
exchange rejects it, retry exactly once with `callbackRate = 0.5`; if that
is also rejected, return no order.  `submit` maps the callback rate of an
attempt to the exchange's response (`none` = `BinanceAPIException`).
Returns the order (if any), the submission attempts, and the log trail. -/
def place_trailing_stop (symbol : String) (info : SymbolInfo)
    (submit : ℚ → Option ℕ) (signal : Signal) (quantity0 : ℚ) :
    Option ℕ × List Action × List LogEvent :=
  let quantity := round_quantity symbol info quantity0
  let side := if signal = Signal.LONG then "SELL" else "BUY"
  match submit 1 with
  | some oid =>
    (some oid, [Action.trailingStop side quantity 1], [LogEvent.trailingPlaced])
  | none =>
    match submit (1/2) with
    | some oid =>
      (some oid,
       [Action.trailingStop side quantity 1, Action.trailingStop side quantity (1/2)],
       [LogEvent.errorPlacingTrailing, LogEvent.retryingTrailing,
        LogEvent.trailingPlacedOnRetry])
    | none =>
      (none,
       [Action.trailingStop side quantity 1, Action.trailingStop side quantity (1/2)],
       [LogEvent.errorPlacingTrailing, LogEvent.retryingTrailing,
        LogEvent.errorPlacingTrailingRetry])

/-- `FuturesBot.check_and_place_trailing_stop` (src/botfuturosbinance.py:238-253):
if the symbol's open orders already contain a `TRAILING_STOP_MARKET`
order, log and do nothing; otherwise call `place_trailing_stop` and then
log "Trailing stop colocado exitosamente." unconditionally, ignoring the
placement result.  Returns the submission attempts and the log trail. -/
def check_and_place_trailing_stop (symbol : String) (info : SymbolInfo)
    (open_orders : List OrderInfo) (submit : ℚ → Option ℕ)
    (signal : Signal) (quantity : ℚ) : List Action × List LogEvent :=
  if open_orders.any (fun o => o.type = "TRAILING_STOP_MARKET")
  then ([], [LogEvent.trailingCheckExists])
  else
    ((place_trailing_stop symbol info submit signal quantity).2.1,
     LogEvent.trailingCheckMissing ::
       (place_trailing_stop symbol info submit signal quantity).2.2 ++
       [LogEvent.trailingActionSuccess])

/-- The position-open branch of `FuturesBot.run`
(src/botfuturosbinance.py:312-320): normalize the absolute position
quantity, infer the side from the position's sign when the cycle produced
no signal, then verify/place the trailing stop.  Returns the signal
actually used, the normalized quantity, and the trace of
`check_and_place_trailing_stop`. -/
def run_position_open_branch (symbol : String) (info : SymbolInfo)
    (signal : Option Signal) (positionAmt : ℚ)
    (open_orders : List OrderInfo) (submit : ℚ → Option ℕ) :
    Signal × ℚ × List Action × List LogEvent :=
  match signal with
  | none =>
    (if positionAmt > 0 then Signal.LONG else Signal.SHORT,
     round_quantity symbol info |positionAmt|,
     check_and_place_trailing_stop symbol info open_orders submit
       (if positionAmt > 0 then Signal.LONG else Signal.SHORT)
       (round_quantity symbol info |positionAmt|))
  | some s =>
    (s, round_quantity symbol info |positionAmt|,
     check_and_place_trailing_stop symbol info open_orders submit s
       (round_quantity symbol info |positionAmt|))

/-- `FuturesBot.place_order` (src/botfuturosbinance.py:176-196): size the
market order with `calculate_order_quantity` at the entry price and submit
it (buy for LONG, sell for SHORT).  `entry_result` is the exchange's
response (`none` = `BinanceAPIException`, in which case `place_order`
returns `None` to the caller).  The submission attempt itself always
happens, so it is always in the action trace. -/
def place_order (symbol : String) (info : SymbolInfo)
    (base_capital_pct leverage balance : ℚ) (entry_result : Option ℕ)
    (signal : Signal) (entry_price : ℚ) : Option ℕ × List Action :=
  (entry_result,
   [Action.marketOrder (if signal = Signal.LONG then "BUY" else "SELL")
     (calculate_order_quantity symbol info base_capital_pct leverage balance entry_price)])

/-- The flat (no open position) branch of `FuturesBot.run`
(src/botfuturosbinance.py:321-331): with no signal, only log; with a
signal, place a market entry at the last candle's close; only if that
order is acknowledged, recompute the quantity (`balance2` is the balance
re-queried at that point), place the trailing stop, and run
`manage_stop_orders` on the then-open orders (`open_orders2`). -/
def run_flat_branch (symbol : String) (info : SymbolInfo)
    (base_capital_pct leverage : ℚ) (signal : Option Signal)
    (last_close : ℚ) (balance1 balance2 : ℚ) (entry_result : Option ℕ)
    (submit : ℚ → Option ℕ) (open_orders2 : List OrderInfo) : List Action :=
  match signal with
  | none => []
  | some sig =>
    match (place_order symbol info base_capital_pct leverage balance1 entry_result sig last_close).1 with
    | none => (place_order symbol info base_capital_pct leverage balance1 entry_result sig last_close).2
    | some _ =>
      (place_order symbol info base_capital_pct leverage balance1 entry_result sig last_close).2 ++
      (place_trailing_stop symbol info submit sig
        (calculate_order_quantity symbol info base_capital_pct leverage balance2 last_close)).2.1 ++
      (match manage_stop_orders open_orders2 with
       | some oid => [Action.cancelOrder oid]
       | none => [])

/-- Positivity of every step size the symbol metadata may carry. -/
def StepPos (info : SymbolInfo) : Prop :=
  ∀ s : ℚ, info.stepSize = some s → 0 < s

/-! ### Properties of the rounding primitives -/

theorem roundHalfEven_eq_floor_or_succ (x : ℚ) :
    roundHalfEven x = ⌊x⌋ ∨ roundHalfEven x = ⌊x⌋ + 1 := by
  unfold roundHalfEven
  split_ifs <;> simp

theorem floor_le_roundHalfEven (x : ℚ) : ⌊x⌋ ≤ roundHalfEven x := by
  rcases roundHalfEven_eq_floor_or_succ x with h | h <;> omega

theorem roundHalfEven_le_floor_add_one (x : ℚ) : roundHalfEven x ≤ ⌊x⌋ + 1 := by
  rcases roundHalfEven_eq_floor_or_succ x with h | h <;> omega

theorem abs_roundHalfEven_sub_le (x : ℚ) : |(roundHalfEven x : ℚ) - x| ≤ 1/2 := by
  have hfl := Int.floor_le x
  have hfu := Int.lt_floor_add_one x
  rw [abs_le]
  unfold roundHalfEven
  split_ifs with h1 h2 h3 <;> constructor <;> push_cast <;> linarith

theorem roundHalfEven_mono {x y : ℚ} (h : x ≤ y) :
    roundHalfEven x ≤ roundHalfEven y := by
  have hf : ⌊x⌋ ≤ ⌊y⌋ := Int.floor_mono h
  rcases lt_or_eq_of_le hf with hlt | heq
  · calc roundHalfEven x ≤ ⌊x⌋ + 1 := roundHalfEven_le_floor_add_one x
      _ ≤ ⌊y⌋ := by omega
      _ ≤ roundHalfEven y := floor_le_roundHalfEven y
  · unfold roundHalfEven
    rw [← heq]
    have hr : x - (⌊x⌋ : ℚ) ≤ y - (⌊x⌋ : ℚ) := by linarith
    split_ifs <;> first | omega | linarith

theorem roundHalfEven_intCast (k : ℤ) : roundHalfEven (k : ℚ) = k := by
  unfold roundHalfEven
  rw [Int.floor_intCast]
  norm_num

theorem roundHalfEven_nonneg {x : ℚ} (hx : 0 ≤ x) : 0 ≤ roundHalfEven x := by
  have := floor_le_roundHalfEven x
  have : (0 : ℤ) ≤ ⌊x⌋ := Int.floor_nonneg.mpr hx
  omega

theorem roundTo_mono (n : ℤ) {x y : ℚ} (h : x ≤ y) : roundTo x n ≤ roundTo y n := by
  unfold roundTo
  have hp : (0 : ℚ) < (10 : ℚ) ^ n := zpow_pos (by norm_num) n
  have hm : x * (10 : ℚ) ^ n ≤ y * (10 : ℚ) ^ n :=
    mul_le_mul_of_nonneg_right h hp.le
  have := roundHalfEven_mono hm
  exact div_le_div_of_nonneg_right (by exact_mod_cast this) hp.le

theorem roundTo_nonneg {x : ℚ} (n : ℤ) (hx : 0 ≤ x) : 0 ≤ roundTo x n := by
  unfold roundTo
  have hp : (0 : ℚ) < (10 : ℚ) ^ n := zpow_pos (by norm_num) n
  have h0 : 0 ≤ roundHalfEven (x * (10 : ℚ) ^ n) :=
    roundHalfEven_nonneg (by positivity)
  positivity

theorem abs_roundTo_sub_le (x : ℚ) (n : ℤ) :
    |roundTo x n - x| ≤ 1/2 * (10 : ℚ) ^ (-n) := by
  unfold roundTo
  have hp : (0 : ℚ) < (10 : ℚ) ^ n := zpow_pos (by norm_num) n
  have hb := abs_roundHalfEven_sub_le (x * (10 : ℚ) ^ n)
  have hx : (roundHalfEven (x * (10 : ℚ) ^ n) : ℚ) / (10 : ℚ) ^ n - x
      = ((roundHalfEven (x * (10 : ℚ) ^ n) : ℚ) - x * (10 : ℚ) ^ n) / (10 : ℚ) ^ n := by
    field_simp
    ring
  rw [hx, abs_div, abs_of_pos hp, div_le_iff₀ hp, zpow_neg]
  calc |(roundHalfEven (x * (10 : ℚ) ^ n) : ℚ) - x * (10 : ℚ) ^ n| ≤ 1/2 := hb
    _ = 1/2 * (((10 : ℚ) ^ n)⁻¹ * (10 : ℚ) ^ n) := by
        rw [inv_mul_cancel₀ hp.ne']; ring
    _ = 1/2 * ((10 : ℚ) ^ n)⁻¹ * (10 : ℚ) ^ n := by ring

theorem roundTo_intCast_mul {x : ℚ} {n : ℤ} (k : ℤ)
    (hk : x * (10 : ℚ) ^ n = (k : ℚ)) : roundTo x n = x := by
  unfold roundTo
  rw [hk, roundHalfEven_intCast]
  have hp : (0 : ℚ) < (10 : ℚ) ^ n := zpow_pos (by norm_num) n
  rw [← hk, mul_div_assoc, div_self hp.ne', mul_one]

theorem roundTo_zero (n : ℤ) : roundTo 0 n = 0 := by
  rw [roundTo_intCast_mul 0 (by push_cast; ring)]

/-! ### Properties of `round_quantity` and `calculate_order_quantity` -/

theorem round_quantity_core_nonneg (qp : Option ℤ) (ss : Option ℚ)
    (hstep : ∀ s : ℚ, ss = some s → 0 < s) {q : ℚ} (hq : 0 ≤ q) :
    0 ≤ round_quantity_core qp ss q := by
  rcases ss with _ | s
  · exact roundTo_nonneg _ hq
  · have hspos : 0 < s := hstep s rfl
    have hfl : (0 : ℚ) ≤ (⌊q / s⌋ : ℚ) * s := by
      have h1 : (0 : ℤ) ≤ ⌊q / s⌋ := Int.floor_nonneg.mpr (by positivity)
      have h0 : (0 : ℚ) ≤ (⌊q / s⌋ : ℚ) := by exact_mod_cast h1
      positivity
    rcases qp with _ | p
    · exact roundTo_nonneg _ hfl
    · exact roundTo_nonneg _ hfl

theorem round_quantity_core_zero (qp : Option ℤ) (ss : Option ℚ) :
    round_quantity_core qp ss 0 = 0 := by
  rcases ss with _ | s
  · exact roundTo_zero _
  · have h0 : ((⌊(0 : ℚ) / s⌋ : ℚ) * s) = 0 := by
      rw [zero_div, Int.floor_zero]
      push_cast
      ring
    rcases qp with _ | p <;> simp only [round_quantity_core, h0] <;> exact roundTo_zero _

theorem round_quantity_core_mono (qp : Option ℤ) (ss : Option ℚ)
    (hstep : ∀ s : ℚ, ss = some s → 0 < s) {q q' : ℚ} (h : q ≤ q') :
    round_quantity_core qp ss q ≤ round_quantity_core qp ss q' := by
  rcases ss with _ | s
  · exact roundTo_mono _ h
  · have hspos : 0 < s := hstep s rfl
    have hfl : (⌊q / s⌋ : ℚ) * s ≤ (⌊q' / s⌋ : ℚ) * s := by
      have hd : q / s ≤ q' / s := div_le_div_of_nonneg_right h hspos.le
      have h1 : ⌊q / s⌋ ≤ ⌊q' / s⌋ := Int.floor_mono hd
      have hc : ((⌊q / s⌋ : ℤ) : ℚ) ≤ ((⌊q' / s⌋ : ℤ) : ℚ) := by exact_mod_cast h1
      exact mul_le_mul_of_nonneg_right hc hspos.le
    rcases qp with _ | p
    · exact roundTo_mono _ hfl
    · exact roundTo_mono _ hfl

theorem round_quantity_nonneg (symbol : String) (info : SymbolInfo)
    (hstep : StepPos info) {q : ℚ} (hq : 0 ≤ q) :
    0 ≤ round_quantity symbol info q :=
  round_quantity_core_nonneg _ _ hstep hq

theorem round_quantity_zero (symbol : String) (info : SymbolInfo) :
    round_quantity symbol info 0 = 0 :=
  round_quantity_core_zero _ _

theorem round_quantity_mono (symbol : String) (info : SymbolInfo)
    (hstep : StepPos info) {q q' : ℚ} (h : q ≤ q') :
    round_quantity symbol info q ≤ round_quantity symbol info q' :=
  round_quantity_core_mono _ _ hstep h

theorem calculate_order_quantity_nonneg (symbol : String) (info : SymbolInfo)
    (hstep : StepPos info) {pct lev b ep : ℚ}
    (hpct : 0 ≤ pct) (hlev : 0 ≤ lev) (hb : 0 ≤ b) (hep : 0 < ep) :
    0 ≤ calculate_order_quantity symbol info pct lev b ep := by
  unfold calculate_order_quantity
  exact round_quantity_nonneg symbol info hstep (by positivity)

theorem calculate_order_quantity_balance_zero (symbol : String) (info : SymbolInfo)
    (pct lev ep : ℚ) :
    calculate_order_quantity symbol info pct lev 0 ep = 0 := by
  show round_quantity symbol info (0 * pct * lev / ep) = 0
  rw [zero_mul, zero_mul, zero_div]
  exact round_quantity_zero symbol info

/-! ### Claim theorems -/

/-- C1: for every two consecutive indicator points closing the series, with
`d_prev = prev.ema_fast - prev.ema_slow` and `d_last = last.ema_fast -
last.ema_slow`, `determine_signal` emits LONG iff `d_prev ≤ 0 ∧ d_last > 0`,
SHORT iff `d_prev ≥ 0 ∧ d_last < 0`, and no signal in all other cases
(including `d_prev = d_last = 0`); in particular it never emits both LONG
and SHORT for the same input. -/
theorem determine_signal_crossover_law (l : List IndicatorPoint)
    (prev last : IndicatorPoint) :
    determine_signal (l ++ [prev, last]) =
      (if prev.1 - prev.2 ≤ 0 ∧ 0 < last.1 - last.2 then some Signal.LONG
       else if 0 ≤ prev.1 - prev.2 ∧ last.1 - last.2 < 0 then some Signal.SHORT
       else none) ∧
    (prev.1 - prev.2 = 0 → last.1 - last.2 = 0 →
      determine_signal (l ++ [prev, last]) = none) ∧
    ¬ (determine_signal (l ++ [prev, last]) = some Signal.LONG ∧
       determine_signal (l ++ [prev, last]) = some Signal.SHORT) := by
  have hsplit : l ++ [prev, last] = (l ++ [prev]) ++ [last] := by simp
  have hlen : (l ++ [prev, last]).length = l.length + 2 := by simp
  have hlast : (l ++ [prev, last]).getLast? = some last := by
    rw [hsplit, List.getLast?_concat]
  have hdrop : (l ++ [prev, last]).dropLast.getLast? = some prev := by
    rw [hsplit, List.dropLast_concat, List.getLast?_concat]
  have hmain : determine_signal (l ++ [prev, last]) =
      (if prev.1 - prev.2 ≤ 0 ∧ 0 < last.1 - last.2 then some Signal.LONG
       else if 0 ≤ prev.1 - prev.2 ∧ last.1 - last.2 < 0 then some Signal.SHORT
       else none) := by
    unfold determine_signal
    rw [hlast, hdrop, hlen]
    rw [if_neg (by omega : ¬ l.length + 2 < 2)]
  refine ⟨hmain, ?_, ?_⟩
  · intro h1 h2
    rw [hmain, h1, h2]
    norm_num
  · rintro ⟨hL, hS⟩
    rw [hL] at hS
    exact Signal.noConfusion (Option.some.inj hS)

/-- C2, counterexample: the claim "computeQuantity never returns a negative
quantity, and whenever entry_price ≤ 0 or balance ≤ 0 its result is exactly
0" fails on the code: with balance = -100 ≤ 0 (capital fraction 0.95,
leverage 10, entry price 100, step 0.01, precision 2) the code has no
guard, computes raw = -9.5 and returns -9.5, a negative, non-zero result. -/
theorem calculate_order_quantity_negative_counterexample :
    calculate_order_quantity "SOLUSDT" ⟨some 2, some (1/100)⟩ (19/20) 10 (-100) 100
      = -19/2 ∧
    calculate_order_quantity "SOLUSDT" ⟨some 2, some (1/100)⟩ (19/20) 10 (-100) 100
      < 0 := by
  have h : calculate_order_quantity "SOLUSDT" ⟨some 2, some (1/100)⟩ (19/20) 10 (-100) 100
      = -19/2 := by
    unfold calculate_order_quantity round_quantity round_quantity_core roundTo roundHalfEven
    norm_num
  exact ⟨h, by rw [h]; norm_num⟩

/-- C2, amended: for positive entry price, nonnegative balance, and the
nonnegative configured capital fraction and leverage, computeQuantity never
returns a negative quantity, and when the balance is 0 its result is
exactly 0 (the source has no guard, so a negative balance or negative entry
price yields a negative quantity, and entry price 0 raises a
`ZeroDivisionError` instead of returning 0). -/
theorem calculate_order_quantity_nonneg_amended (symbol : String)
    (info : SymbolInfo) (hstep : StepPos info) (pct lev b ep : ℚ)
    (hpct : 0 ≤ pct) (hlev : 0 ≤ lev) (hb : 0 ≤ b) (hep : 0 < ep) :
    0 ≤ calculate_order_quantity symbol info pct lev b ep ∧
    (b = 0 → calculate_order_quantity symbol info pct lev b ep = 0) := by
  refine ⟨calculate_order_quantity_nonneg symbol info hstep hpct hlev hb hep, ?_⟩
  rintro rfl
  exact calculate_order_quantity_balance_zero symbol info pct lev ep

/-- C2, witness for the amended theorem at balance 0. -/
theorem calculate_order_quantity_nonneg_amended_witness :
    0 ≤ calculate_order_quantity "SOLUSDT" ⟨some 2, some (1/100)⟩ (19/20) 10 0 100 ∧
    ((0 : ℚ) = 0 →
      calculate_order_quantity "SOLUSDT" ⟨some 2, some (1/100)⟩ (19/20) 10 0 100 = 0) :=
  calculate_order_quantity_nonneg_amended "SOLUSDT" ⟨some 2, some (1/100)⟩
    (by rintro s ⟨rfl⟩; norm_num) (19/20) 10 0 100
    (by norm_num) (by norm_num) le_rfl (by norm_num)

/-- C3: for positive balance, capital fraction, leverage and entry price,
and available filters (a positive step size and a quantity precision),
computeQuantity is exactly `raw = (balance * capital_fraction * leverage) /
entry_price` truncated toward zero to the nearest multiple of the step
size and then rounded to `quantity_precision` decimal places. -/
theorem calculate_order_quantity_formula (symbol : String) (p : ℤ)
    (s pct lev b ep : ℚ) (hpct : 0 < pct) (hlev : 0 < lev)
    (hb : 0 < b) (hep : 0 < ep) (hs : 0 < s) :
    calculate_order_quantity symbol ⟨some p, some s⟩ pct lev b ep =
      roundTo ((truncTowardZero (b * pct * lev / ep / s) : ℚ) * s) p := by
  have hraw : (0 : ℚ) ≤ b * pct * lev / ep / s := by positivity
  unfold calculate_order_quantity round_quantity
  rw [if_neg (by simp : ¬ (symbol = "SOLUSDT" ∧ (some p : Option ℤ) = none))]
  show roundTo ((⌊b * pct * lev / ep / s⌋ : ℚ) * s) p = _
  rw [truncTowardZero, if_pos hraw]

/-- C3, witness: balance 1000, fraction 0.95, leverage 10, entry 100,
step 0.01, precision 2. -/
theorem calculate_order_quantity_formula_witness :
    calculate_order_quantity "ETHUSDT" ⟨some 2, some (1/100)⟩ (19/20) 10 1000 100 =
      roundTo ((truncTowardZero (1000 * (19/20) * 10 / 100 / (1/100)) : ℚ) * (1/100)) 2 :=
  calculate_order_quantity_formula "ETHUSDT" 2 (1/100) (19/20) 10 1000 100
    (by norm_num) (by norm_num) (by norm_num) (by norm_num) (by norm_num)

/-- C4, counterexample: with balance = 1000, capital fraction = 0.95,
leverage = 10, entry price = 100, step size = 0.01 and precision 2, the
code computes raw = (1000 * 0.95 * 10) / 100 = 95, not the 950 the spec's
scenario A states (the scenario's `floor(950/0.01)*0.01` forgets the
division by the entry price after applying the leverage). -/
theorem scenario_a_counterexample :
    ¬ calculate_order_quantity "SOLUSDT" ⟨some 2, some (1/100)⟩ (19/20) 10 1000 100
        = 950 := by
  have h : calculate_order_quantity "SOLUSDT" ⟨some 2, some (1/100)⟩ (19/20) 10 1000 100
      = 95 := by
    unfold calculate_order_quantity round_quantity round_quantity_core roundTo roundHalfEven
    norm_num
  rw [h]
  norm_num

/-- C4, amended: for balance = 1000, capital_fraction = 0.95, leverage = 10,
entry_price = 100, step_size = 0.01 and quantity_precision = 2,
computeQuantity returns 95.00 = floor(95 / 0.01) * 0.01. -/
theorem scenario_a_amended :
    calculate_order_quantity "SOLUSDT" ⟨some 2, some (1/100)⟩ (19/20) 10 1000 100
      = 95 := by
  unfold calculate_order_quantity round_quantity round_quantity_core roundTo roundHalfEven
  norm_num

/-- Unfolding of `calculate_order_quantity` when both filters are present. -/
theorem calculate_order_quantity_some_some (symbol : String) (p : ℤ)
    (s pct lev b ep : ℚ) :
    calculate_order_quantity symbol ⟨some p, some s⟩ pct lev b ep =
      roundTo ((⌊b * pct * lev / ep / s⌋ : ℚ) * s) p := by
  unfold calculate_order_quantity round_quantity
  rw [if_neg (by simp : ¬ (symbol = "SOLUSDT" ∧ (some p : Option ℤ) = none))]
  rfl

/-- C5, counterexample: with step size 0.22 and precision 1 (balance 1/4,
fraction 1, leverage 1, entry price 1), computeQuantity returns 0.2 (raw
0.25 floored to 0.22, then rounded to one decimal), and
`floor(quantity/step_size) * step_size = 0` differs from the quantity by
0.2, more than the rounding tolerance `10^-1` of the precision — the
claimed round-trip identity fails when the step size is not a power of
ten. -/
theorem sizing_roundtrip_counterexample :
    calculate_order_quantity "ETHUSDT" ⟨some 1, some (22/100)⟩ 1 1 (1/4) 1 = 1/5 ∧
    |(⌊calculate_order_quantity "ETHUSDT" ⟨some 1, some (22/100)⟩ 1 1 (1/4) 1
        / (22/100)⌋ : ℚ) * (22/100)
      - calculate_order_quantity "ETHUSDT" ⟨some 1, some (22/100)⟩ 1 1 (1/4) 1|
      > (10 : ℚ) ^ (-1 : ℤ) := by
  have h : calculate_order_quantity "ETHUSDT" ⟨some 1, some (22/100)⟩ 1 1 (1/4) 1
      = 1/5 := by
    unfold calculate_order_quantity round_quantity round_quantity_core roundTo roundHalfEven
    norm_num [show ¬ ("ETHUSDT" = "SOLUSDT" ∧ (some (1 : ℤ)) = none) from by decide]
  refine ⟨h, ?_⟩
  rw [h]
  norm_num
  rw [abs_of_pos (by norm_num : (0 : ℚ) < 1/5)]
  norm_num

/-- C5, amended: holding the other arguments and filters fixed (positive
capital fraction, leverage, entry price, step size, nonnegative balance),
computeQuantity is non-decreasing in balance and in leverage and
non-increasing in entry price; its result always lies within half of
`10^-quantity_precision` of an integer multiple of step_size; and when the
step size is a power of ten `10^-m` with `m ≤ quantity_precision` (as for
real exchange filters) the result is an exact multiple of the step size:
`floor(quantity/step_size) * step_size = quantity` exactly. -/
theorem sizing_monotonicity_amended (symbol : String) (p : ℤ)
    (s pct lev b ep : ℚ) (hpct : 0 < pct) (hlev : 0 < lev)
    (hb : 0 ≤ b) (hep : 0 < ep) (hs : 0 < s) :
    (∀ b₁ b₂ : ℚ, b₁ ≤ b₂ →
      calculate_order_quantity symbol ⟨some p, some s⟩ pct lev b₁ ep ≤
        calculate_order_quantity symbol ⟨some p, some s⟩ pct lev b₂ ep) ∧
    (∀ l₁ l₂ : ℚ, l₁ ≤ l₂ →
      calculate_order_quantity symbol ⟨some p, some s⟩ pct l₁ b ep ≤
        calculate_order_quantity symbol ⟨some p, some s⟩ pct l₂ b ep) ∧
    (∀ e₁ e₂ : ℚ, 0 < e₁ → e₁ ≤ e₂ →
      calculate_order_quantity symbol ⟨some p, some s⟩ pct lev b e₂ ≤
        calculate_order_quantity symbol ⟨some p, some s⟩ pct lev b e₁) ∧
    (∃ k : ℤ,
      |calculate_order_quantity symbol ⟨some p, some s⟩ pct lev b ep - (k : ℚ) * s|
        ≤ 1/2 * (10 : ℚ) ^ (-p)) ∧
    (∀ m : ℕ, s = (10 : ℚ) ^ (-(m : ℤ)) → (m : ℤ) ≤ p →
      (⌊calculate_order_quantity symbol ⟨some p, some s⟩ pct lev b ep / s⌋ : ℚ) * s =
        calculate_order_quantity symbol ⟨some p, some s⟩ pct lev b ep) := by
  have hstep : StepPos ⟨some p, some s⟩ := by
    intro s' h
    cases h
    exact hs
  have hrq : ∀ q q' : ℚ, q ≤ q' →
      round_quantity symbol ⟨some p, some s⟩ q ≤ round_quantity symbol ⟨some p, some s⟩ q' :=
    fun q q' h => round_quantity_mono symbol _ hstep h
  refine ⟨?_, ?_, ?_, ?_, ?_⟩
  · intro b₁ b₂ h
    exact hrq _ _ (by
      apply div_le_div_of_nonneg_right _ hep.le
      have h1 : b₁ * pct ≤ b₂ * pct := mul_le_mul_of_nonneg_right h hpct.le
      exact mul_le_mul_of_nonneg_right h1 hlev.le)
  · intro l₁ l₂ h
    exact hrq _ _ (by
      apply div_le_div_of_nonneg_right _ hep.le
      exact mul_le_mul_of_nonneg_left h (by positivity))
  · intro e₁ e₂ he₁ h
    exact hrq _ _ (by
      apply div_le_div_of_nonneg_left (by positivity) he₁
      exact h)
  · refine ⟨⌊b * pct * lev / ep / s⌋, ?_⟩
    rw [calculate_order_quantity_some_some]
    exact abs_roundTo_sub_le _ p
  · intro m hsm hmp
    rw [calculate_order_quantity_some_some]
    set j : ℤ := ⌊b * pct * lev / ep / s⌋ with hj
    have hx : ((j : ℚ) * s) * (10 : ℚ) ^ p = ((j * 10 ^ (p - (m : ℤ)).toNat : ℤ) : ℚ) := by
      have hpm : ((p - (m : ℤ)).toNat : ℤ) = p - (m : ℤ) := Int.toNat_of_nonneg (by omega)
      push_cast
      rw [hsm, ← zpow_natCast (10 : ℚ) ((p - (m : ℤ)).toNat), hpm, mul_assoc,
        ← zpow_add₀ (by norm_num : (10 : ℚ) ≠ 0),
        show -(m : ℤ) + p = p - (m : ℤ) by omega]
    have hround : roundTo ((j : ℚ) * s) p = (j : ℚ) * s :=
      roundTo_intCast_mul _ hx
    rw [hround]
    have hdiv : (j : ℚ) * s / s = (j : ℚ) := by
      field_simp
    rw [hdiv, Int.floor_intCast]

/-- C5, witness: the amended theorem at balance 1000, fraction 0.95,
leverage 10, entry 100, step 0.01, precision 2. -/
theorem sizing_monotonicity_amended_witness :
    (∀ b₁ b₂ : ℚ, b₁ ≤ b₂ →
      calculate_order_quantity "ETHUSDT" ⟨some 2, some (1/100)⟩ (19/20) 10 b₁ 100 ≤
        calculate_order_quantity "ETHUSDT" ⟨some 2, some (1/100)⟩ (19/20) 10 b₂ 100) ∧
    (∀ l₁ l₂ : ℚ, l₁ ≤ l₂ →
      calculate_order_quantity "ETHUSDT" ⟨some 2, some (1/100)⟩ (19/20) l₁ 1000 100 ≤
        calculate_order_quantity "ETHUSDT" ⟨some 2, some (1/100)⟩ (19/20) l₂ 1000 100) ∧
    (∀ e₁ e₂ : ℚ, 0 < e₁ → e₁ ≤ e₂ →
      calculate_order_quantity "ETHUSDT" ⟨some 2, some (1/100)⟩ (19/20) 10 1000 e₂ ≤
        calculate_order_quantity "ETHUSDT" ⟨some 2, some (1/100)⟩ (19/20) 10 1000 e₁) ∧
    (∃ k : ℤ,
      |calculate_order_quantity "ETHUSDT" ⟨some 2, some (1/100)⟩ (19/20) 10 1000 100
          - (k : ℚ) * (1/100)|
        ≤ 1/2 * (10 : ℚ) ^ (-2 : ℤ)) ∧
    (∀ m : ℕ, (1/100 : ℚ) = (10 : ℚ) ^ (-(m : ℤ)) → (m : ℤ) ≤ 2 →
      (⌊calculate_order_quantity "ETHUSDT" ⟨some 2, some (1/100)⟩ (19/20) 10 1000 100
          / (1/100)⌋ : ℚ) * (1/100) =
        calculate_order_quantity "ETHUSDT" ⟨some 2, some (1/100)⟩ (19/20) 10 1000 100) :=
  sizing_monotonicity_amended "ETHUSDT" 2 (1/100) (19/20) 10 1000 100
    (by norm_num) (by norm_num) (by norm_num) (by norm_num) (by norm_num)

/-- C6: `place_trailing_stop` makes exactly one submission attempt when the
first submission succeeds; on a first rejection it retries exactly once
with a smaller callback rate (0.5 instead of 1.0); a rejection followed by
a success yields exactly two attempts with the second attempt's order
returned; two rejections surface the failure (no order returned) with no
further attempts in the call. -/
theorem place_trailing_stop_retry (symbol : String) (info : SymbolInfo)
    (submit : ℚ → Option ℕ) (sig : Signal) (q : ℚ) :
    (∀ oid : ℕ, submit 1 = some oid →
      (place_trailing_stop symbol info submit sig q).1 = some oid ∧
      (place_trailing_stop symbol info submit sig q).2.1.length = 1) ∧
    (∀ oid : ℕ, submit 1 = none → submit (1/2) = some oid →
      (place_trailing_stop symbol info submit sig q).1 = some oid ∧
      (place_trailing_stop symbol info submit sig q).2.1.length = 2) ∧
    (submit 1 = none → submit (1/2) = none →
      (place_trailing_stop symbol info submit sig q).1 = none ∧
      (place_trailing_stop symbol info submit sig q).2.1.length = 2) ∧
    (submit 1 = none →
      ∃ side : String,
        (place_trailing_stop symbol info submit sig q).2.1 =
          [Action.trailingStop side (round_quantity symbol info q) 1,
           Action.trailingStop side (round_quantity symbol info q) (1/2)] ∧
        (1/2 : ℚ) < 1) := by
  refine ⟨?_, ?_, ?_, ?_⟩
  · intro oid h1
    unfold place_trailing_stop
    rw [h1]
    exact ⟨rfl, rfl⟩
  · intro oid h1 h2
    unfold place_trailing_stop
    rw [h1, h2]
    exact ⟨rfl, rfl⟩
  · intro h1 h2
    unfold place_trailing_stop
    rw [h1, h2]
    exact ⟨rfl, rfl⟩
  · intro h1
    refine ⟨if sig = Signal.LONG then "SELL" else "BUY", ?_, by norm_num⟩
    unfold place_trailing_stop
    rw [h1]
    rcases submit (1/2) with _ | oid <;> rfl

/-- C6, witness: an exchange that rejects callback rate 1.0 and accepts
0.5 produces two attempts, returning the second attempt's order 7. -/
theorem place_trailing_stop_retry_witness :
    (place_trailing_stop "ETHUSDT" ⟨some 2, some (1/100)⟩
        (fun cb => if cb = 1 then none else some 7) Signal.LONG 5).1 = some 7 ∧
    (place_trailing_stop "ETHUSDT" ⟨some 2, some (1/100)⟩
        (fun cb => if cb = 1 then none else some 7) Signal.LONG 5).2.1.length = 2 :=
  (place_trailing_stop_retry "ETHUSDT" ⟨some 2, some (1/100)⟩
      (fun cb => if cb = 1 then none else some 7) Signal.LONG 5).2.1 7
    (by norm_num) (by norm_num)

/-- In a list of length at most one, any two members coincide. -/
theorem eq_of_mem_of_length_le_one {α : Type} {l : List α}
    (hlen : l.length ≤ 1) {a b : α} (ha : a ∈ l) (hb : b ∈ l) : a = b := by
  match l with
  | [] => cases ha
  | [x] =>
    rw [List.mem_singleton] at ha hb
    rw [ha, hb]
  | x :: y :: t => simp at hlen

/-- An existence criterion for the last element of a filtered list. -/
theorem filter_getLast?_isSome {α : Type} (p : α → Bool) (l : List α) :
    (l.filter p).getLast?.isSome ↔ ∃ a ∈ l, p a = true := by
  rw [List.getLast?_isSome]
  constructor
  · intro h
    rcases List.exists_mem_of_ne_nil _ h with ⟨a, ha⟩
    rcases List.mem_filter.mp ha with ⟨hmem, hp⟩
    exact ⟨a, hmem, hp⟩
  · rintro ⟨a, hmem, hp⟩ hnil
    have : a ∈ l.filter p := List.mem_filter.mpr ⟨hmem, hp⟩
    rw [hnil] at this
    cases this

/-- `manage_stop_orders` cancels nothing when no `STOP_MARKET` order is
listed. -/
theorem manage_stop_orders_eq_none_of_no_stop (l : List OrderInfo)
    (h : ∀ o ∈ l, ¬ o.type = "STOP_MARKET") : manage_stop_orders l = none := by
  have hnil : l.filter (fun o => o.type = "STOP_MARKET") = [] :=
    List.filter_eq_nil_iff.mpr (by
      intro o ho
      simpa using h o ho)
  unfold manage_stop_orders
  rw [hnil]
  rfl

/-- `manage_stop_orders_run` leaves the open orders unchanged when
`manage_stop_orders` cancels nothing. -/
theorem manage_stop_orders_run_of_none (l : List OrderInfo)
    (h : manage_stop_orders l = none) : manage_stop_orders_run l = l := by
  unfold manage_stop_orders_run
  rw [h]

/-- C7, counterexample: with two `STOP_MARKET` orders (ids 1 and 2) and one
`TRAILING_STOP_MARKET` order (id 3), one run of `manage_stop_orders`
cancels only the last `STOP_MARKET` order (id 2), so a second run with no
intervening order change cancels id 1 as well: running it twice does not
yield the same end state as running it once. -/
theorem manage_stop_orders_not_idempotent :
    manage_stop_orders_run (manage_stop_orders_run
        [⟨"STOP_MARKET", 1⟩, ⟨"STOP_MARKET", 2⟩, ⟨"TRAILING_STOP_MARKET", 3⟩]) ≠
      manage_stop_orders_run
        [⟨"STOP_MARKET", 1⟩, ⟨"STOP_MARKET", 2⟩, ⟨"TRAILING_STOP_MARKET", 3⟩] := by
  decide

/-- C7, amended: `manage_stop_orders` cancels an order iff the open orders
contain both a `STOP_MARKET` and a `TRAILING_STOP_MARKET` order.  Provided
order ids are distinct and at most one `STOP_MARKET` order is present (the
claim's "the STOP_MARKET order"): when both types are present exactly the
`STOP_MARKET` order is cancelled and the `TRAILING_STOP_MARKET` order
remains; when only one or neither type exists nothing is cancelled; and
running it twice with no intervening order change yields the same end
state as running it once. -/
theorem manage_stop_orders_amended (orders : List OrderInfo)
    (hids : (orders.map OrderInfo.orderId).Nodup)
    (hsm1 : (orders.filter (fun o => o.type = "STOP_MARKET")).length ≤ 1) :
    ((manage_stop_orders orders).isSome ↔
      ((∃ o ∈ orders, o.type = "STOP_MARKET") ∧
       (∃ o ∈ orders, o.type = "TRAILING_STOP_MARKET"))) ∧
    ((∃ o ∈ orders, o.type = "STOP_MARKET") →
      (∃ o ∈ orders, o.type = "TRAILING_STOP_MARKET") →
      manage_stop_orders_run orders =
          orders.filter (fun o => ¬ o.type = "STOP_MARKET") ∧
        ∃ o ∈ manage_stop_orders_run orders, o.type = "TRAILING_STOP_MARKET") ∧
    (¬ ((∃ o ∈ orders, o.type = "STOP_MARKET") ∧
        (∃ o ∈ orders, o.type = "TRAILING_STOP_MARKET")) →
      manage_stop_orders_run orders = orders) ∧
    manage_stop_orders_run (manage_stop_orders_run orders) =
      manage_stop_orders_run orders := by
  have hiff : (manage_stop_orders orders).isSome = true ↔
      ((∃ o ∈ orders, o.type = "STOP_MARKET") ∧
       (∃ o ∈ orders, o.type = "TRAILING_STOP_MARKET")) := by
    unfold manage_stop_orders
    rcases hS : (orders.filter (fun o => o.type = "STOP_MARKET")).getLast? with _ | sm <;>
      rcases hT : (orders.filter (fun o => o.type = "TRAILING_STOP_MARKET")).getLast? with _ | ts <;>
      rw [hS, hT]
    all_goals
      constructor
    · intro h; cases h
    · rintro ⟨⟨a, ha, hta⟩, -⟩
      have h1 : (orders.filter (fun o => o.type = "STOP_MARKET")).getLast?.isSome := by
        rw [filter_getLast?_isSome]
        exact ⟨a, ha, by simpa using hta⟩
      rw [hS] at h1
      cases h1
    · intro h; cases h
    · rintro ⟨⟨a, ha, hta⟩, -⟩
      have h1 : (orders.filter (fun o => o.type = "STOP_MARKET")).getLast?.isSome := by
        rw [filter_getLast?_isSome]
        exact ⟨a, ha, by simpa using hta⟩
      rw [hS] at h1
      cases h1
    · intro h; cases h
    · rintro ⟨-, ⟨a, ha, hta⟩⟩
      have h1 : (orders.filter (fun o => o.type = "TRAILING_STOP_MARKET")).getLast?.isSome := by
        rw [filter_getLast?_isSome]
        exact ⟨a, ha, by simpa using hta⟩
      rw [hT] at h1
      cases h1
    · intro _
      constructor
      · have h1 : sm ∈ orders.filter (fun o => o.type = "STOP_MARKET") :=
          List.mem_of_mem_getLast? hS
        rcases List.mem_filter.mp h1 with ⟨hmem, hp⟩
        exact ⟨sm, hmem, by simpa using hp⟩
      · have h1 : ts ∈ orders.filter (fun o => o.type = "TRAILING_STOP_MARKET") :=
          List.mem_of_mem_getLast? hT
        rcases List.mem_filter.mp h1 with ⟨hmem, hp⟩
        exact ⟨ts, hmem, by simpa using hp⟩
    · intro _; rfl
  have hboth : ∀ hA : ∃ o ∈ orders, o.type = "STOP_MARKET",
      ∀ hB : ∃ o ∈ orders, o.type = "TRAILING_STOP_MARKET",
      manage_stop_orders_run orders =
        orders.filter (fun o => ¬ o.type = "STOP_MARKET") := by
    intro hA hB
    have hsome : (manage_stop_orders orders).isSome := hiff.mpr ⟨hA, hB⟩
    rcases hm : manage_stop_orders orders with _ | oid
    · rw [hm] at hsome; cases hsome
    -- identify the cancelled order: the last STOP_MARKET entry
    · have hS : ∃ sm, (orders.filter (fun o => o.type = "STOP_MARKET")).getLast? = some sm
          ∧ oid = sm.orderId := by
        unfold manage_stop_orders at hm
        rcases hS' : (orders.filter (fun o => o.type = "STOP_MARKET")).getLast? with _ | sm <;>
          rcases hT' : (orders.filter (fun o => o.type = "TRAILING_STOP_MARKET")).getLast? with _ | ts <;>
          rw [hS', hT'] at hm
        · cases hm
        · cases hm
        · cases hm
        · exact ⟨sm, hS', (Option.some.inj hm).symm⟩
      rcases hS with ⟨sm, hS, rfl⟩
      have hsmF : sm ∈ orders.filter (fun o => o.type = "STOP_MARKET") :=
        List.mem_of_mem_getLast? hS
      rcases List.mem_filter.mp hsmF with ⟨hsmMem, hsmTy⟩
      have hsmTy' : sm.type = "STOP_MARKET" := by simpa using hsmTy
      unfold manage_stop_orders_run
      rw [hm]
      apply List.filter_congr
      intro o ho
      rcases Bool.eq_false_or_eq_true (decide (o.type = "STOP_MARKET")) with hdec | hdec
      · -- o is a STOP_MARKET order, hence the unique one that is cancelled
        have hty : o.type = "STOP_MARKET" := of_decide_eq_true hdec
        have hoF : o ∈ orders.filter (fun o => o.type = "STOP_MARKET") :=
          List.mem_filter.mpr ⟨ho, by simpa using hty⟩
        have heq : o = sm := eq_of_mem_of_length_le_one hsm1 hoF hsmF
        simp [heq, hty, hsmTy']
      · -- o is not a STOP_MARKET order, so it is not the cancelled one
        have hne : ¬ o.type = "STOP_MARKET" := of_decide_eq_false hdec
        have hido : ¬ o.orderId = sm.orderId := by
          intro hid
          have heq : o = sm := List.inj_on_of_nodup_map hids ho hsmMem hid
          rw [heq] at hne
          exact hne hsmTy'
        simp [hido, hne]
  refine ⟨hiff, ?_, ?_, ?_⟩
  · intro hA hB
    refine ⟨hboth hA hB, ?_⟩
    rcases hB with ⟨t, htMem, htTy⟩
    refine ⟨t, ?_, htTy⟩
    rw [hboth hA ⟨t, htMem, htTy⟩]
    exact List.mem_filter.mpr ⟨htMem, by simp [htTy]⟩
  · intro hnot
    apply manage_stop_orders_run_of_none
    rcases hm : manage_stop_orders orders with _ | oid
    · rfl
    · exact absurd (hiff.mp (by rw [hm]; rfl)) hnot
  · by_cases hb : (∃ o ∈ orders, o.type = "STOP_MARKET") ∧
        (∃ o ∈ orders, o.type = "TRAILING_STOP_MARKET")
    · have h1 : manage_stop_orders_run orders =
          orders.filter (fun o => ¬ o.type = "STOP_MARKET") := hboth hb.1 hb.2
      apply manage_stop_orders_run_of_none
      apply manage_stop_orders_eq_none_of_no_stop
      intro o ho
      rw [h1] at ho
      rcases List.mem_filter.mp ho with ⟨-, hp⟩
      simpa using hp
    · have h1 : manage_stop_orders_run orders = orders := by
        apply manage_stop_orders_run_of_none
        rcases hm : manage_stop_orders orders with _ | oid
        · rfl
        · exact absurd (hiff.mp (by rw [hm]; rfl)) hb
      rw [h1]
      exact h1

/-- C7, witness for the amended theorem: one `STOP_MARKET` order (id 1)
and one `TRAILING_STOP_MARKET` order (id 3). -/
theorem manage_stop_orders_amended_witness :
    ((manage_stop_orders [⟨"STOP_MARKET", 1⟩, ⟨"TRAILING_STOP_MARKET", 3⟩]).isSome ↔
      ((∃ o ∈ [OrderInfo.mk "STOP_MARKET" 1, OrderInfo.mk "TRAILING_STOP_MARKET" 3],
          o.type = "STOP_MARKET") ∧
       (∃ o ∈ [OrderInfo.mk "STOP_MARKET" 1, OrderInfo.mk "TRAILING_STOP_MARKET" 3],
          o.type = "TRAILING_STOP_MARKET"))) ∧
    ((∃ o ∈ [OrderInfo.mk "STOP_MARKET" 1, OrderInfo.mk "TRAILING_STOP_MARKET" 3],
        o.type = "STOP_MARKET") →
      (∃ o ∈ [OrderInfo.mk "STOP_MARKET" 1, OrderInfo.mk "TRAILING_STOP_MARKET" 3],
        o.type = "TRAILING_STOP_MARKET") →
      manage_stop_orders_run [⟨"STOP_MARKET", 1⟩, ⟨"TRAILING_STOP_MARKET", 3⟩] =
          List.filter (fun o => ¬ o.type = "STOP_MARKET")
            [⟨"STOP_MARKET", 1⟩, ⟨"TRAILING_STOP_MARKET", 3⟩] ∧
        ∃ o ∈ manage_stop_orders_run [⟨"STOP_MARKET", 1⟩, ⟨"TRAILING_STOP_MARKET", 3⟩],
          o.type = "TRAILING_STOP_MARKET") ∧
    (¬ ((∃ o ∈ [OrderInfo.mk "STOP_MARKET" 1, OrderInfo.mk "TRAILING_STOP_MARKET" 3],
          o.type = "STOP_MARKET") ∧
        (∃ o ∈ [OrderInfo.mk "STOP_MARKET" 1, OrderInfo.mk "TRAILING_STOP_MARKET" 3],
          o.type = "TRAILING_STOP_MARKET")) →
      manage_stop_orders_run [⟨"STOP_MARKET", 1⟩, ⟨"TRAILING_STOP_MARKET", 3⟩] =
        [⟨"STOP_MARKET", 1⟩, ⟨"TRAILING_STOP_MARKET", 3⟩]) ∧
    manage_stop_orders_run (manage_stop_orders_run
        [⟨"STOP_MARKET", 1⟩, ⟨"TRAILING_STOP_MARKET", 3⟩]) =
      manage_stop_orders_run [⟨"STOP_MARKET", 1⟩, ⟨"TRAILING_STOP_MARKET", 3⟩] :=
  manage_stop_orders_amended [⟨"STOP_MARKET", 1⟩, ⟨"TRAILING_STOP_MARKET", 3⟩]
    (by decide) (by decide)

/-- The submission attempts of `place_trailing_stop`: one attempt at
callback rate 1.0, or two attempts at rates 1.0 then 0.5, always on the
closing side and with the rounded quantity. -/
theorem place_trailing_stop_actions_shape (symbol : String) (info : SymbolInfo)
    (submit : ℚ → Option ℕ) (sig : Signal) (q : ℚ) :
    (place_trailing_stop symbol info submit sig q).2.1 =
      [Action.trailingStop (if sig = Signal.LONG then "SELL" else "BUY")
        (round_quantity symbol info q) 1] ∨
    (place_trailing_stop symbol info submit sig q).2.1 =
      [Action.trailingStop (if sig = Signal.LONG then "SELL" else "BUY")
        (round_quantity symbol info q) 1,
       Action.trailingStop (if sig = Signal.LONG then "SELL" else "BUY")
        (round_quantity symbol info q) (1/2)] := by
  unfold place_trailing_stop
  rcases submit 1 with _ | o1
  · rcases submit (1/2) with _ | o2
    · right; rfl
    · right; rfl
  · left; rfl

/-- The submission attempts of `check_and_place_trailing_stop`: none when
a trailing-stop order is already listed, otherwise exactly those of
`place_trailing_stop`. -/
theorem check_and_place_trailing_stop_actions (symbol : String)
    (info : SymbolInfo) (orders : List OrderInfo) (submit : ℚ → Option ℕ)
    (sig : Signal) (q : ℚ) :
    (check_and_place_trailing_stop symbol info orders submit sig q).1 =
      if orders.any (fun o => o.type = "TRAILING_STOP_MARKET")
      then []
      else (place_trailing_stop symbol info submit sig q).2.1 := by
  unfold check_and_place_trailing_stop
  split_ifs with h
  · rfl
  · rfl

/-- C8: in the position-open branch of the cycle, when the cycle produced
no fresh signal the side is inferred from the sign of the position
quantity (LONG if positive, SHORT if negative); a trailing-stop submission
is attempted iff no `TRAILING_STOP_MARKET` order is listed among the open
orders (in particular the controller never submits one when one already
exists), and every attempted submission is sized to the normalized
absolute position quantity (normalized once in the run loop and once more
inside `place_trailing_stop`). -/
theorem run_position_open_invariant (symbol : String) (info : SymbolInfo)
    (signal : Option Signal) (amt : ℚ) (orders : List OrderInfo)
    (submit : ℚ → Option ℕ) :
    (signal = none → 0 < amt →
      (run_position_open_branch symbol info signal amt orders submit).1 = Signal.LONG) ∧
    (signal = none → amt < 0 →
      (run_position_open_branch symbol info signal amt orders submit).1 = Signal.SHORT) ∧
    ((∃ o ∈ orders, o.type = "TRAILING_STOP_MARKET") →
      (run_position_open_branch symbol info signal amt orders submit).2.2.1 = []) ∧
    ((run_position_open_branch symbol info signal amt orders submit).2.2.1 ≠ [] ↔
      ¬ ∃ o ∈ orders, o.type = "TRAILING_STOP_MARKET") ∧
    (∀ a ∈ (run_position_open_branch symbol info signal amt orders submit).2.2.1,
      ∃ side cb, a = Action.trailingStop side
        (round_quantity symbol info (round_quantity symbol info |amt|)) cb) := by
  have hany : orders.any (fun o => o.type = "TRAILING_STOP_MARKET") = true ↔
      ∃ o ∈ orders, o.type = "TRAILING_STOP_MARKET" := by
    simp [List.any_eq_true]
  have hacts : (run_position_open_branch symbol info signal amt orders submit).2.2.1 =
      if orders.any (fun o => o.type = "TRAILING_STOP_MARKET")
      then []
      else (place_trailing_stop symbol info submit
        (run_position_open_branch symbol info signal amt orders submit).1
        (round_quantity symbol info |amt|)).2.1 := by
    rcases signal with _ | s <;>
      simp only [run_position_open_branch] <;>
      rw [check_and_place_trailing_stop_actions]
  refine ⟨?_, ?_, ?_, ?_, ?_⟩
  · intro hsig hpos
    unfold run_position_open_branch
    rw [hsig]
    simp [hpos]
  · intro hsig hneg
    unfold run_position_open_branch
    rw [hsig]
    simp [not_lt_of_gt hneg]
  · intro hex
    rw [hacts, if_pos (hany.mpr hex)]
  · rw [hacts]
    rcases Bool.eq_false_or_eq_true
        (orders.any (fun o => o.type = "TRAILING_STOP_MARKET")) with hT | hT
    · rw [if_pos hT]
      simp [hany.mp hT]
    · rw [if_neg (by rw [hT]; exact Bool.false_ne_true)]
      constructor
      · intro _
        intro hex
        rw [← hany] at hex
        rw [hT] at hex
        cases hex
      · intro _
        rcases place_trailing_stop_actions_shape symbol info submit
            (run_position_open_branch symbol info signal amt orders submit).1
            (round_quantity symbol info |amt|) with hsh | hsh <;>
          rw [hsh] <;> simp
  · intro a ha
    rw [hacts] at ha
    rcases Bool.eq_false_or_eq_true
        (orders.any (fun o => o.type = "TRAILING_STOP_MARKET")) with hT | hT
    · rw [if_pos hT] at ha
      cases ha
    · rw [if_neg (by rw [hT]; exact Bool.false_ne_true)] at ha
      rcases place_trailing_stop_actions_shape symbol info submit
          (run_position_open_branch symbol info signal amt orders submit).1
          (round_quantity symbol info |amt|) with hsh | hsh <;>
        rw [hsh] at ha
      · rw [List.mem_singleton] at ha
        subst ha
        exact ⟨_, _, rfl⟩
      · rcases List.mem_cons.mp ha with rfl | ha2
        · exact ⟨_, _, rfl⟩
        · rw [List.mem_singleton] at ha2
          subst ha2
          exact ⟨_, _, rfl⟩

/-- C8, witness: position quantity -5 with no fresh signal and no open
trailing order infers SHORT and attempts a trailing-stop submission. -/
theorem run_position_open_invariant_witness :
    (run_position_open_branch "ETHUSDT" ⟨some 2, some (1/100)⟩ none (-5) []
        (fun _ => some 11)).1 = Signal.SHORT ∧
    (run_position_open_branch "ETHUSDT" ⟨some 2, some (1/100)⟩ none (-5) []
        (fun _ => some 11)).2.2.1 ≠ [] :=
  ⟨(run_position_open_invariant "ETHUSDT" ⟨some 2, some (1/100)⟩ none (-5) []
      (fun _ => some 11)).2.1 rfl (by norm_num),
   (run_position_open_invariant "ETHUSDT" ⟨some 2, some (1/100)⟩ none (-5) []
      (fun _ => some 11)).2.2.2.1.mpr (by simp)⟩

/-- C9: in a flat cycle with a signal, the controller submits exactly one
market entry order, sized by the sizing policy at the last candle's close
price; iff the entry is acknowledged it then attempts the protective
trailing stop (sized to the re-queried order quantity, re-rounded by
`place_trailing_stop`) followed by conflict resolution, in that order; on
entry failure the cycle's trace is the single failed entry attempt — no
protective order and no further entry attempt. -/
theorem run_flat_entry_flow (symbol : String) (info : SymbolInfo)
    (pct lev : ℚ) (signal : Option Signal) (close b1 b2 : ℚ)
    (entry_result : Option ℕ) (submit : ℚ → Option ℕ)
    (orders2 : List OrderInfo) :
    (signal = none →
      run_flat_branch symbol info pct lev signal close b1 b2 entry_result submit orders2 = []) ∧
    (∀ sig, signal = some sig →
      (run_flat_branch symbol info pct lev signal close b1 b2 entry_result submit orders2).head? =
        some (Action.marketOrder (if sig = Signal.LONG then "BUY" else "SELL")
          (calculate_order_quantity symbol info pct lev b1 close)) ∧
      ((run_flat_branch symbol info pct lev signal close b1 b2 entry_result submit orders2).filter
          Action.isMarket).length = 1) ∧
    (∀ sig, signal = some sig → entry_result = none →
      run_flat_branch symbol info pct lev signal close b1 b2 entry_result submit orders2 =
        [Action.marketOrder (if sig = Signal.LONG then "BUY" else "SELL")
          (calculate_order_quantity symbol info pct lev b1 close)]) ∧
    (∀ sig, signal = some sig → entry_result ≠ none →
      ∃ trail cancels,
        run_flat_branch symbol info pct lev signal close b1 b2 entry_result submit orders2 =
          Action.marketOrder (if sig = Signal.LONG then "BUY" else "SELL")
              (calculate_order_quantity symbol info pct lev b1 close) :: (trail ++ cancels) ∧
        trail ≠ [] ∧
        (∀ a ∈ trail, ∃ cb, a = Action.trailingStop
          (if sig = Signal.LONG then "SELL" else "BUY")
          (round_quantity symbol info (calculate_order_quantity symbol info pct lev b2 close)) cb) ∧
        (∀ a ∈ cancels, ∃ oid, a = Action.cancelOrder oid)) ∧
    ((∃ a ∈ run_flat_branch symbol info pct lev signal close b1 b2 entry_result submit orders2,
        Action.isTrailing a = true) ↔
      ((∃ sig, signal = some sig) ∧ entry_result ≠ none)) := by
  rcases signal with _ | sig
  · refine ⟨fun _ => rfl, ?_, ?_, ?_, ?_⟩
    · intro sig h; cases h
    · intro sig h; cases h
    · intro sig h; cases h
    · simp [run_flat_branch]
  · rcases hentry : entry_result with _ | oid
    · -- entry rejected: the trace is the single failed market attempt
      have hrun : run_flat_branch symbol info pct lev (some sig) close b1 b2 none submit orders2 =
          [Action.marketOrder (if sig = Signal.LONG then "BUY" else "SELL")
            (calculate_order_quantity symbol info pct lev b1 close)] := rfl
      refine ⟨fun h => Option.noConfusion h, ?_, ?_, ?_, ?_⟩
      · rintro sig' ⟨rfl⟩
        rw [hrun]
        exact ⟨rfl, by simp [Action.isMarket]⟩
      · rintro sig' ⟨rfl⟩ _
        rw [hrun]
      · rintro sig' ⟨rfl⟩ habs
        exact absurd rfl habs
      · rw [hrun]
        simp [Action.isTrailing]
    · -- entry acknowledged: market entry, then trailing stop, then cleanup
      have hrun : run_flat_branch symbol info pct lev (some sig) close b1 b2 (some oid) submit orders2 =
          Action.marketOrder (if sig = Signal.LONG then "BUY" else "SELL")
              (calculate_order_quantity symbol info pct lev b1 close) ::
            ((place_trailing_stop symbol info submit sig
                (calculate_order_quantity symbol info pct lev b2 close)).2.1 ++
             (match manage_stop_orders orders2 with
              | some oid2 => [Action.cancelOrder oid2]
              | none => [])) := rfl
      have htrail := place_trailing_stop_actions_shape symbol info submit sig
        (calculate_order_quantity symbol info pct lev b2 close)
      refine ⟨fun h => Option.noConfusion h, ?_, ?_, ?_, ?_⟩
      · rintro sig' ⟨rfl⟩
        rw [hrun]
        refine ⟨rfl, ?_⟩
        rcases htrail with hsh | hsh <;>
          rcases hm : manage_stop_orders orders2 with _ | oid2 <;>
          rw [hsh] <;>
          simp [Action.isMarket]
      · rintro sig' ⟨rfl⟩ h
        cases h
      · rintro sig' ⟨rfl⟩ _
        refine ⟨(place_trailing_stop symbol info submit sig
            (calculate_order_quantity symbol info pct lev b2 close)).2.1,
          (match manage_stop_orders orders2 with
           | some oid2 => [Action.cancelOrder oid2]
           | none => []), hrun, ?_, ?_, ?_⟩
        · rcases htrail with hsh | hsh <;> rw [hsh] <;> simp
        · intro a ha
          rcases htrail with hsh | hsh <;> rw [hsh] at ha
          · rw [List.mem_singleton] at ha
            subst ha
            exact ⟨_, rfl⟩
          · rcases List.mem_cons.mp ha with rfl | ha2
            · exact ⟨_, rfl⟩
            · rw [List.mem_singleton] at ha2
              subst ha2
              exact ⟨_, rfl⟩
        · intro a ha
          rcases hm : manage_stop_orders orders2 with _ | oid2 <;> rw [hm] at ha
          · cases ha
          · rw [List.mem_singleton] at ha
            subst ha
            exact ⟨_, rfl⟩
      · rw [hrun]
        constructor
        · intro _
          exact ⟨⟨sig, rfl⟩, by simp⟩
        · intro _
          rcases htrail with hsh | hsh <;> rw [hsh] <;>
            exact ⟨Action.trailingStop (if sig = Signal.LONG then "SELL" else "BUY")
              (round_quantity symbol info (calculate_order_quantity symbol info pct lev b2 close)) 1,
              by simp, rfl⟩

/-- C9, witness: a LONG signal in a flat cycle with an acknowledged entry
produces the entry followed by trailing-stop attempts and cleanup. -/
theorem run_flat_entry_flow_witness :
    ∃ trail cancels,
      run_flat_branch "ETHUSDT" ⟨some 2, some (1/100)⟩ (19/20) 10 (some Signal.LONG)
          100 1000 1000 (some 1) (fun _ => some 2) [] =
        Action.marketOrder (if Signal.LONG = Signal.LONG then "BUY" else "SELL")
            (calculate_order_quantity "ETHUSDT" ⟨some 2, some (1/100)⟩ (19/20) 10 1000 100) ::
          (trail ++ cancels) ∧
      trail ≠ [] ∧
      (∀ a ∈ trail, ∃ cb, a = Action.trailingStop
        (if Signal.LONG = Signal.LONG then "SELL" else "BUY")
        (round_quantity "ETHUSDT" ⟨some 2, some (1/100)⟩
          (calculate_order_quantity "ETHUSDT" ⟨some 2, some (1/100)⟩ (19/20) 10 1000 100)) cb) ∧
      (∀ a ∈ cancels, ∃ oid, a = Action.cancelOrder oid) :=
  (run_flat_entry_flow "ETHUSDT" ⟨some 2, some (1/100)⟩ (19/20) 10 (some Signal.LONG)
      100 1000 1000 (some 1) (fun _ => some 2) []).2.2.2.1 Signal.LONG rfl (by simp)

/-- C10: whenever `check_and_place_trailing_stop` finds no
`TRAILING_STOP_MARKET` order listed, it ends its log trail with the
success record "Trailing stop colocado exitosamente." unconditionally —
in particular even when both submission attempts were rejected and
`place_trailing_stop` returned no order. -/
theorem check_and_place_success_log_unconditional (symbol : String)
    (info : SymbolInfo) (orders : List OrderInfo) (submit : ℚ → Option ℕ)
    (sig : Signal) (q : ℚ)
    (hno : ¬ ∃ o ∈ orders, o.type = "TRAILING_STOP_MARKET") :
    (check_and_place_trailing_stop symbol info orders submit sig q).2.getLast? =
      some LogEvent.trailingActionSuccess ∧
    (submit 1 = none → submit (1/2) = none →
      (place_trailing_stop symbol info submit sig q).1 = none) := by
  have hany : orders.any (fun o => o.type = "TRAILING_STOP_MARKET") = false := by
    rcases Bool.eq_false_or_eq_true
        (orders.any (fun o => o.type = "TRAILING_STOP_MARKET")) with hT | hT
    · exact absurd (by simpa [List.any_eq_true] using hT) hno
    · exact hT
  constructor
  · unfold check_and_place_trailing_stop
    rw [if_neg (by rw [hany]; exact Bool.false_ne_true)]
    rw [List.getLast?_concat]
  · intro h1 h2
    unfold place_trailing_stop
    rw [h1, h2]

/-- C10, witness: an empty open-order list and an exchange rejecting both
attempts still ends the log trail with the success record. -/
theorem check_and_place_success_log_unconditional_witness :
    (check_and_place_trailing_stop "ETHUSDT" ⟨some 2, some (1/100)⟩ []
        (fun _ => none) Signal.LONG 5).2.getLast? =
      some LogEvent.trailingActionSuccess ∧
    ((fun _ : ℚ => (none : Option ℕ)) 1 = none →
      (fun _ : ℚ => (none : Option ℕ)) (1/2) = none →
      (place_trailing_stop "ETHUSDT" ⟨some 2, some (1/100)⟩
        (fun _ => none) Signal.LONG 5).1 = none) :=
  check_and_place_success_log_unconditional "ETHUSDT" ⟨some 2, some (1/100)⟩ []
    (fun _ => none) Signal.LONG 5 (by simp)

end FuturesBot
